import Mathlib

/-!
# Verification of the btsync_rewind core (`core.py`)

A shallow embedding of the three core components of the repository:

* the path/timestamp parser `get_timestamp_and_rel_path`,
* the version resolver `resolve_file`,
* the directory projector `readdir`,

together with proofs of the specification's claims about them.

The filesystem is modelled as an abstract state `FS` of boolean/integer
observations keyed by path strings, exactly the observations the Python code
makes (`os.path.exists`, `os.path.isdir`, `os.path.isfile`, `int(lstat.st_mtime)`,
`os.listdir`).  Path manipulation (`os.path.join`, `os.path.dirname`,
`os.path.basename`) is translated from CPython's `posixpath` implementation.
Python string operations are modelled over the character list of a `String`.
-/

/-! ## Python string primitives -/

/-- Python `s.startswith(pre)`. -/
def pyStartsWith (s pre : String) : Bool :=
  s.toList.take pre.toList.length == pre.toList

/-- Python `s.endswith(suf)`. -/
def pyEndsWith (s suf : String) : Bool :=
  s.toList.reverse.take suf.toList.length == suf.toList.reverse

/-- Python `s[n:]` (character slicing). -/
def pyDrop (s : String) (n : Nat) : String :=
  ⟨s.toList.drop n⟩

/-- Python `s[:n]` (character slicing). -/
def pyTake (s : String) (n : Nat) : String :=
  ⟨s.toList.take n⟩

/-- Python `s.find(c, start)`: index of the first occurrence of `c` at or after
position `start`, or `-1` when there is none. -/
def pyFind (s : String) (c : Char) (start : Nat) : Int :=
  match (s.toList.drop start).findIdx? (fun x => x == c) with
  | some i => ((start + i : Nat) : Int)
  | none => -1

/-- CPython `posixpath.join(a, b)` (used only with the two-argument and the
left-folded three-argument form, as in the source). -/
def ospath_join (a b : String) : String :=
  if pyStartsWith b "/" then b
  else if a == "" || pyEndsWith a "/" then a ++ b
  else a ++ "/" ++ b

/-- CPython `posixpath.split(p)`: position one past the last slash. -/
def lastSlashEnd : List Char → Nat
  | [] => 0
  | c :: cs =>
    let r := lastSlashEnd cs
    if r > 0 then r + 1 else if c = '/' then 1 else 0

/-- CPython `posixpath.split(p)`: split into `(head, tail)` around the last
slash, stripping trailing slashes from a non-root head. -/
def pySplitPath (p : String) : String × String :=
  let l := p.toList
  let i := lastSlashEnd l
  let head := l.take i
  let tail := l.drop i
  let head2 :=
    if head ≠ [] ∧ ¬ (∀ c ∈ head, c = '/') then
      (head.reverse.dropWhile (fun c => c = '/')).reverse
    else head
  (⟨head2⟩, ⟨tail⟩)

/-- Python `os.path.dirname`. -/
def pyDirname (p : String) : String := (pySplitPath p).1

/-- Python `os.path.basename`. -/
def pyBasename (p : String) : String := (pySplitPath p).2

/-! ## The archive filename pattern

`resolve_file` matches archive entries against the regex
`'^' + basename + '(\.[0-9]+)?$'` built by string concatenation from the
**unescaped** basename.  We model Python's `re.match` semantics for the
fragment of patterns that can arise from basenames whose characters are all
regex-literal except possibly `.`:

* a literal character in `basename` matches itself;
* a `.` in `basename` matches any single character except a newline
  (no `re.DOTALL`);
* the explicit tail `(\.[0-9]+)?$` matches an optional literal dot followed
  by a nonempty digit run, where `$` matches at the end of the string or
  just before a trailing newline.

Basenames containing other regex metacharacters (`\\ ^ $ | ? * + ( ) [ ] { }`)
are outside the modelled fragment (on some of them CPython's `re.compile`
even raises); theorems that depend on the pattern's behaviour carry a
`regexSafe`/`regexPlain` hypothesis restricting to the modelled fragment. -/

/-- The regex metacharacters of Python `re` other than `.`. -/
def reMetachars : List Char :=
  ['\\', '^', '$', '|', '?', '*', '+', '(', ')', '[', ']', '\x7b', '\x7d']

/-- `basename` contains no regex metacharacter except possibly `.` — the
fragment on which the archive-pattern model is faithful to Python `re`. -/
def regexSafe (b : String) : Prop :=
  ∀ c ∈ b.toList, ¬ c ∈ reMetachars

/-- `basename` contains no regex metacharacter at all (not even `.`). -/
def regexPlain (b : String) : Prop :=
  regexSafe b ∧ '.' ∉ b.toList

instance regexSafeDecidable (b : String) : Decidable (regexSafe b) :=
  List.decidableBAll (fun c => ¬ c ∈ reMetachars) b.toList

instance regexPlainDecidable (b : String) : Decidable (regexPlain b) :=
  inferInstanceAs (Decidable (regexSafe b ∧ '.' ∉ b.toList))

/-- Python `[0-9]` (ASCII digits only). -/
def isPyDigit (c : Char) : Bool := '0' ≤ c && c ≤ '9'

/-- Matching the basename part of the pattern: each pattern character consumes
exactly one subject character; `.` is the any-character-except-newline
wildcard, every other character is literal. -/
def patMatch : List Char → List Char → Bool
  | [], [] => true
  | [], _ :: _ => false
  | _ :: _, [] => false
  | p :: ps, c :: cs => (if p = '.' then c != '\n' else p == c) && patMatch ps cs

/-- Matching the pattern tail `(\.[0-9]+)?$`: the remaining subject characters
must be empty, a lone trailing newline, or a literal dot followed by a
nonempty digit run, optionally followed by a trailing newline. -/
def tailOk (l : List Char) : Bool :=
  if l = [] then true
  else if l = ['\n'] then true
  else if l.head? = some '.' then
    let rest := l.tail
    let ds := rest.takeWhile isPyDigit
    let r := rest.dropWhile isPyDigit
    !ds.isEmpty && (r.isEmpty || r == ['\n'])
  else false

/-- `re.match('^' + basename + '(\.[0-9]+)?$', filename)` as a boolean, on the
modelled fragment (see above). -/
def prevVersionMatch (basename filename : String) : Bool :=
  patMatch basename.toList (filename.toList.take basename.toList.length) &&
  tailOk (filename.toList.drop basename.toList.length)

/-- `re.sub('\.[0-9]+$', '', filename)` from `readdir`: strip one trailing
`.<digits>` run occurring at the end of the string or immediately before a
single trailing newline (Python `$` semantics). -/
def stripVersionSuffix (filename : String) : String :=
  let l := filename.toList
  let hasNl := l.getLast? == some '\n'
  let body := if hasNl then l.dropLast else l
  let rev := body.reverse
  let ds := rev.takeWhile isPyDigit
  let rest := rev.dropWhile isPyDigit
  let body2 := if !ds.isEmpty && (rest.head? == some '.') then rest.tail.reverse else body
  ⟨body2 ++ (if hasNl then ['\n'] else [])⟩

/-! ## Python's stable sorts

`list.sort(key=...)` and `list.sort(reverse=True, key=...)` are stable sorts
by the first pair component; we model them with stable insertion sorts. -/

/-- Insert keeping elements with key `≤ x.1` in front: stable ascending. -/
def insertAsc (x : Int × String) : List (Int × String) → List (Int × String)
  | [] => [x]
  | y :: ys => if y.1 ≤ x.1 then y :: insertAsc x ys else x :: y :: ys

/-- Python `list.sort(key=fst)`: stable, ascending by the first component. -/
def pySortAsc (l : List (Int × String)) : List (Int × String) :=
  l.foldl (fun acc x => insertAsc x acc) []

/-- Insert keeping elements with key `≥ x.1` in front: stable descending. -/
def insertDesc (x : Int × String) : List (Int × String) → List (Int × String)
  | [] => [x]
  | y :: ys => if x.1 ≤ y.1 then y :: insertDesc x ys else x :: y :: ys

/-- Python `list.sort(reverse=True, key=fst)`: stable, descending by the first
component. -/
def pySortDesc (l : List (Int × String)) : List (Int × String) :=
  l.foldl (fun acc x => insertDesc x acc) []

/-! ## The filesystem state -/

/-- The filesystem observations made by the core, keyed by path strings:
`os.path.exists`, `os.path.isdir`, `os.path.isfile`, the truncated
modification time `int(os.lstat(p).st_mtime)`, and `os.listdir`. -/
structure FS where
  pathExists : String → Bool
  isDir : String → Bool
  isFile : String → Bool
  mtime : String → Int
  listdir : String → List String

/-! ## The version resolver (`resolve_file`) -/

/-- The `errno` values raised through `FuseOSError` by `resolve_file`. -/
inductive Errno
  | einval
  | enoent
  | enotdir
deriving DecidableEq

/-- The possible outcomes of a `resolve_file` call: a raised `FuseOSError`,
an uncaught `OSError` escaping from `os.listdir` on a missing archive
directory, the `None` return ("not found at this timestamp"), or a found
`(boundary, physical path)` pair. -/
inductive ResolveOutcome
  | fuseError : Errno → ResolveOutcome
  | osError : ResolveOutcome
  | notFound : ResolveOutcome
  | found : Int → String → ResolveOutcome
deriving DecidableEq

/-- The `live_crtime` variable of `resolve_file`: the truncated mtime of the
live candidate when it is a regular file, and the sentinel `-1` otherwise. -/
def liveBoundary (fs : FS) (rel_path root_dir : String) : Int :=
  if fs.isFile (ospath_join root_dir rel_path) then
    fs.mtime (ospath_join root_dir rel_path)
  else -1

/-- `os.path.join(root_dir, '.sync/Archive', os.path.dirname(rel_path))`. -/
def archiveDirPath (rel_path root_dir : String) : String :=
  ospath_join (ospath_join root_dir ".sync/Archive") (pyDirname rel_path)

/-- The `(crtime, full_path)` pairs collected from the archive directory scan
of `resolve_file`, in `os.listdir` order: regular files whose name matches the
version pattern for `basename`. -/
def archiveCandidates (fs : FS) (rel_path root_dir : String) : List (Int × String) :=
  (fs.listdir (archiveDirPath rel_path root_dir)).filterMap (fun filename =>
    if prevVersionMatch (pyBasename rel_path) filename then
      let full_path := ospath_join (archiveDirPath rel_path root_dir) filename
      if fs.isFile full_path then some (fs.mtime full_path, full_path) else none
    else none)

/-- `ts_and_paths[-1] = (live_crtime, ts_and_paths[-1][1])`: overwrite the
boundary of the last element. -/
def snapLast (live : Int) : List (Int × String) → List (Int × String)
  | [] => []
  | [x] => [(live, x.2)]
  | x :: y :: ys => x :: snapLast live (y :: ys)

/-- The sorted candidate list after the boundary-snapping step of
`resolve_file` (lines 155-162): sorted ascending by boundary, with the last
(most recent) entry's boundary overwritten by the live boundary when a live
regular file was seen and the list is nonempty. -/
def snappedArchiveList (fs : FS) (rel_path root_dir : String) : List (Int × String) :=
  let sorted := pySortAsc (archiveCandidates fs rel_path root_dir)
  if !(liveBoundary fs rel_path root_dir == -1) && !sorted.isEmpty then
    snapLast (liveBoundary fs rel_path root_dir) sorted
  else sorted

/-- The final walk of `resolve_file`: return the first entry whose boundary is
strictly greater than the query timestamp. -/
def firstCover (timestamp : Int) : List (Int × String) → Option (Int × String)
  | [] => none
  | tp :: rest => if timestamp < tp.1 then some tp else firstCover timestamp rest

/-- `resolve_file(timestamp, rel_path, root_dir)` from `core.py`. -/
def resolve_file (fs : FS) (timestamp : Int) (rel_path root_dir : String) : ResolveOutcome :=
  if pyStartsWith rel_path "/" || pyEndsWith rel_path "/" || rel_path == "" then
    .fuseError .einval
  else if !fs.pathExists root_dir then .fuseError .enoent
  else if !fs.isDir root_dir then .fuseError .enotdir
  else if fs.isFile (ospath_join root_dir rel_path) &&
          decide (liveBoundary fs rel_path root_dir ≤ timestamp) then
    .found (liveBoundary fs rel_path root_dir) (ospath_join root_dir rel_path)
  else if !fs.isDir (archiveDirPath rel_path root_dir) then .osError
  else
    match firstCover timestamp (snappedArchiveList fs rel_path root_dir) with
    | some tp => .found tp.1 tp.2
    | none => .notFound

/-! ## The directory projector (`readdir`) -/

/-- `os.path.join(root_dir, '.sync/Archive', rel_path)` from `readdir`. -/
def readdirArchivePath (rel_path root_dir : String) : String :=
  ospath_join (ospath_join root_dir ".sync/Archive") rel_path

/-- The live directory listing of `readdir`, empty when the live directory is
absent. -/
def liveDirEntries (fs : FS) (rel_path root_dir : String) : List String :=
  if fs.isDir (ospath_join root_dir rel_path) then
    fs.listdir (ospath_join root_dir rel_path)
  else []

/-- The `live_crtimes` defaultdict of `readdir`: the truncated mtime of a live
regular-file child, defaulting to the sentinel `-1`. -/
def readdirLiveCrtime (fs : FS) (rel_path root_dir : String) (name : String) : Int :=
  if name ∈ liveDirEntries fs rel_path root_dir ∧
     fs.isFile (ospath_join (ospath_join root_dir rel_path) name) = true then
    fs.mtime (ospath_join (ospath_join root_dir rel_path) name)
  else -1

/-- The archive directory listing of `readdir`, empty when the archive mirror
directory is absent. -/
def archiveDirEntries (fs : FS) (rel_path root_dir : String) : List String :=
  if fs.isDir (readdirArchivePath rel_path root_dir) then
    fs.listdir (readdirArchivePath rel_path root_dir)
  else []

/-- The `archive_crtimes[d]` list of `readdir`: the `(crtime, full_path)`
pairs of the archive regular files decoding to logical name `d`, in
`os.listdir` order. -/
def archiveVersions (fs : FS) (rel_path root_dir : String) (d : String) : List (Int × String) :=
  ((archiveDirEntries fs rel_path root_dir).filter (fun f =>
      fs.isFile (ospath_join (readdirArchivePath rel_path root_dir) f) &&
      (stripVersionSuffix f == d))).map (fun f =>
    (fs.mtime (ospath_join (readdirArchivePath rel_path root_dir) f),
     ospath_join (readdirArchivePath rel_path root_dir) f))

/-- The per-name version list of `readdir` after sorting descending and
snapping the most recent entry's boundary to the live boundary (lines
215-223). -/
def archiveSnapped (fs : FS) (rel_path root_dir : String) (d : String) : List (Int × String) :=
  let sorted := pySortDesc (archiveVersions fs rel_path root_dir d)
  if !(readdirLiveCrtime fs rel_path root_dir d == -1) then
    match sorted with
    | [] => []
    | x :: xs => (readdirLiveCrtime fs rel_path root_dir d, x.2) :: xs
  else sorted

/-- `readdir(timestamp, rel_path, root_dir)` from `core.py`.  The Python
function returns `['.', '..'] + list(files_set) + list(dirs_set)`; set
iteration order is unspecified there, so properties of the listing are stated
through membership. -/
def readdir (fs : FS) (timestamp : Int) (rel_path root_dir : String) : List String :=
  let live_path := ospath_join root_dir rel_path
  let arch_path := readdirArchivePath rel_path root_dir
  let files_live := (liveDirEntries fs rel_path root_dir).filter (fun name =>
    fs.isFile (ospath_join live_path name) &&
    decide (fs.mtime (ospath_join live_path name) ≤ timestamp))
  let dirs_live := (liveDirEntries fs rel_path root_dir).filter (fun name =>
    !fs.isFile (ospath_join live_path name) &&
    (!(rel_path == "") || !(name == ".sync")))
  let archFiles := (archiveDirEntries fs rel_path root_dir).filter (fun f =>
    fs.isFile (ospath_join arch_path f))
  let dirs_arch := ((archiveDirEntries fs rel_path root_dir).filter (fun f =>
    !fs.isFile (ospath_join arch_path f))).map stripVersionSuffix
  let files_arch := (archFiles.map stripVersionSuffix).dedup.filter (fun d =>
    (archiveSnapped fs rel_path root_dir d).any (fun tp => decide (timestamp < tp.1)))
  "." :: ".." :: (files_live ++ files_arch ++ dirs_live ++ dirs_arch)

/-! ## The path/timestamp parser (`get_timestamp_and_rel_path`) -/

/-- The value classes of Python `float(timestamp_str)` relevant to
`int(float(...))`: a finite value `± mant * 10 ^ scale` (kept exactly; IEEE
rounding/overflow of finite literals is not modelled), an infinity, or NaN. -/
inductive PyFloatVal
  | finite (neg : Bool) (mant : Nat) (scale : Int)
  | infinite
  | nan
deriving DecidableEq

/-- Python whitespace stripped by `float()` (`Py_ISSPACE`). -/
def pyWhitespace (c : Char) : Bool :=
  c == ' ' || c == '\t' || c == '\n' || c == '\r' || c == '\x0b' || c == '\x0c'

/-- Strip leading and trailing Python whitespace. -/
def pyStrip (l : List Char) : List Char :=
  ((l.dropWhile pyWhitespace).reverse.dropWhile pyWhitespace).reverse

/-- The numeric value of a digit run. -/
def digitsToNat (ds : List Char) : Nat :=
  ds.foldl (fun acc c => acc * 10 + (c.toNat - '0'.toNat)) 0

/-- Case-insensitive comparison with a fixed lower-case word. -/
def lowerEq (l : List Char) (s : String) : Bool :=
  l.map Char.toLower == s.toList

/-- Consume an optional sign; `true` means negative. -/
def parseSign (l : List Char) : Bool × List Char :=
  if l.head? == some '+' then (false, l.tail)
  else if l.head? == some '-' then (true, l.tail)
  else (false, l)

/-- Python 2 `float(s)` (`PyOS_string_to_double`): optional surrounding
whitespace, optional sign, then either `inf`/`infinity`/`nan`
(case-insensitive) or a decimal literal `digits [. digits] [(e|E) [sign]
digits]` with at least one mantissa digit, consuming the whole string.
Returns `none` where Python raises `ValueError`. -/
def pyParseFloat (s : String) : Option PyFloatVal :=
  let l0 := pyStrip s.toList
  let (neg, l) := parseSign l0
  if lowerEq l "inf" || lowerEq l "infinity" then some .infinite
  else if lowerEq l "nan" then some .nan
  else
    let ip := l.takeWhile isPyDigit
    let rest := l.dropWhile isPyDigit
    let fp := if rest.head? == some '.' then rest.tail.takeWhile isPyDigit else []
    let rest2 := if rest.head? == some '.' then rest.tail.dropWhile isPyDigit else rest
    if ip.isEmpty && fp.isEmpty then none
    else
      match rest2 with
      | [] => some (.finite neg (digitsToNat (ip ++ fp)) (0 - (fp.length : Int)))
      | e :: r =>
        if e == 'e' || e == 'E' then
          let (eneg, r2) := parseSign r
          let ed := r2.takeWhile isPyDigit
          let r3 := r2.dropWhile isPyDigit
          if ed.isEmpty || !r3.isEmpty then none
          else
            let ex : Int := if eneg then -(digitsToNat ed : Int) else (digitsToNat ed : Int)
            some (.finite neg (digitsToNat (ip ++ fp)) (ex - (fp.length : Int)))
        else none

/-- `int(x)` on a finite float value `± mant * 10 ^ scale`: truncation toward
zero, computed exactly with natural-number arithmetic. -/
def pyFloatTruncToInt (neg : Bool) (mant : Nat) (scale : Int) : Int :=
  let a : Nat := if 0 ≤ scale then mant * 10 ^ scale.toNat else mant / 10 ^ (-scale).toNat
  if neg then -(a : Int) else (a : Int)

/-- The outcomes of `get_timestamp_and_rel_path`: a normal return (the error
result is the normal return `(-1, '')`), or the uncaught `OverflowError`
raised by `int(float(s))` when the token parses to an infinity (only
`ValueError` is caught by the `except` clause). -/
inductive ParseOutcome
  | ok : Int → String → ParseOutcome
  | overflowError : ParseOutcome
deriving DecidableEq

/-- `get_timestamp_and_rel_path(fuse_path)` from `core.py`. -/
def get_timestamp_and_rel_path (fuse_path : String) : ParseOutcome :=
  if !pyStartsWith fuse_path "/" || pyEndsWith fuse_path "/" then .ok (-1) ""
  else
    let ssl := pyFind fuse_path '/' 1
    let timestamp_str := if ssl == -1 then pyDrop fuse_path 1
      else pyDrop (pyTake fuse_path ssl.toNat) 1
    let rel_path := if ssl == -1 then "" else pyDrop fuse_path (ssl.toNat + 1)
    match pyParseFloat timestamp_str with
    | none => .ok (-1) ""
    | some .nan => .ok (-1) ""
    | some .infinite => .overflowError
    | some (.finite neg mant scale) =>
      let timestamp := pyFloatTruncToInt neg mant scale
      if timestamp < 0 then .ok (-1) ""
      else if pyStartsWith rel_path "/" then .ok (-1) ""
      else .ok timestamp rel_path

/-! ## The spec's exact-selection predicate (for comparison with the code)

The specification asserts that an archive entry is selected iff its filename
is *exactly* `basename` or `basename.<digits>`.  This predicate transcribes
the spec's words; the claims compare it against `prevVersionMatch`, which is
what the code computes. -/

/-- Modelled from the spec: filename equals `basename`, or `basename` followed
by a literal dot and a nonempty run of ASCII digits. -/
def specExactArchiveName (b f : String) : Bool :=
  f == b ||
    (f.toList.take b.toList.length == b.toList &&
     ((f.toList.drop b.toList.length).head? == some '.') &&
     !(f.toList.drop b.toList.length).tail.isEmpty &&
     (f.toList.drop b.toList.length).tail.all isPyDigit)

/-! ## Version ranks

To state monotonic coverage we rank the physical versions of a logical path:
an archive entry's rank is its index in the snapped candidate list (oldest
first), and the live version ranks after every archive entry. -/

/-- Index of the first occurrence of a pair in a list (the list length when
absent). -/
def listRank : List (Int × String) → (Int × String) → Nat
  | [], _ => 0
  | x :: xs, e => if x = e then 0 else listRank xs e + 1

/-- Rank of a resolved `(boundary, path)` pair among the versions of a
logical path: the index in the snapped archive candidate list, with the live
path ranked last (at the list length). -/
def versionRank (l : List (Int × String)) (live_path : String) (e : Int × String) : Nat :=
  if e.2 = live_path then l.length else listRank l e

/-! ## Concrete filesystem states used by witnesses and counterexamples -/

/-- Root `/r` with a live file `f1` (mtime 100000) and archive versions `f1`
(mtime 99900) and `f1.1` (mtime 99990); the pre-snap boundary 99990 of `f1.1`
differs from the live boundary 100000. -/
def fsMain : FS where
  pathExists := fun p => p == "/r" || p == "/r/f1"
  isDir := fun p => p == "/r" || p == "/r/" || p == "/r/.sync/Archive/"
  isFile := fun p =>
    p == "/r/f1" || p == "/r/.sync/Archive/f1" || p == "/r/.sync/Archive/f1.1"
  mtime := fun p =>
    if p == "/r/f1" then 100000
    else if p == "/r/.sync/Archive/f1" then 99900
    else if p == "/r/.sync/Archive/f1.1" then 99990
    else 0
  listdir := fun p =>
    if p == "/r/" then ["f1"]
    else if p == "/r/.sync/Archive/" then ["f1", "f1.1"]
    else []

/-- The deleted-file scenario of the spec: the archive mirror of root `/r2`
contains exactly `f2` (mtime 99000) and `f2.1` (mtime 99200), and no live
`f2` exists. -/
def fsC4 : FS where
  pathExists := fun p => p == "/r2"
  isDir := fun p => p == "/r2" || p == "/r2/.sync/Archive/"
  isFile := fun p => p == "/r2/.sync/Archive/f2" || p == "/r2/.sync/Archive/f2.1"
  mtime := fun p =>
    if p == "/r2/.sync/Archive/f2" then 99000
    else if p == "/r2/.sync/Archive/f2.1" then 99200
    else 0
  listdir := fun p => if p == "/r2/.sync/Archive/" then ["f2", "f2.1"] else []

/-- Root `/r` whose archive mirror contains a single regular file named
`axb`; used to exhibit the regex-wildcard behaviour of the unescaped
basename `a.b`. -/
def fsC5 : FS where
  pathExists := fun p => p == "/r"
  isDir := fun p => p == "/r" || p == "/r/.sync/Archive/"
  isFile := fun p => p == "/r/.sync/Archive/axb"
  mtime := fun p => if p == "/r/.sync/Archive/axb" then 100 else 0
  listdir := fun p => if p == "/r/.sync/Archive/" then ["axb"] else []

/-- Root `/r` whose archive mirror of the directory `d` contains a single
child `sub.1` that is not a regular file (a subdirectory). -/
def fsC7 : FS where
  pathExists := fun p => p == "/r"
  isDir := fun p => p == "/r" || p == "/r/.sync/Archive/d"
  isFile := fun _ => false
  mtime := fun _ => 0
  listdir := fun p => if p == "/r/.sync/Archive/d" then ["sub.1"] else []

/-- A filesystem with no entries at all. -/
def fsEmpty : FS where
  pathExists := fun _ => false
  isDir := fun _ => false
  isFile := fun _ => false
  mtime := fun _ => 0
  listdir := fun _ => []

/-! ## Helper lemmas -/

theorem string_ext_data {s t : String} (h : s.toList = t.toList) : s = t :=
  String.ext h

theorem takeWhile_eq_self_of_all {p : Char → Bool} {l : List Char}
    (h : ∀ c ∈ l, p c = true) : l.takeWhile p = l := by
  induction l with
  | nil => rfl
  | cons c cs ih =>
    rw [List.takeWhile_cons, h c (List.mem_cons_self c cs)]
    exact congrArg (c :: ·) (ih fun x hx => h x (List.mem_cons_of_mem c hx))

theorem dropWhile_eq_nil_of_all {p : Char → Bool} {l : List Char}
    (h : ∀ c ∈ l, p c = true) : l.dropWhile p = [] := by
  induction l with
  | nil => rfl
  | cons c cs ih =>
    rw [List.dropWhile_cons, h c (List.mem_cons_self c cs)]
    simpa using ih fun x hx => h x (List.mem_cons_of_mem c hx)

theorem mem_of_mem_dropWhile {p : Char → Bool} {l : List Char} {c : Char}
    (h : c ∈ l.dropWhile p) : c ∈ l :=
  (List.dropWhile_sublist p).mem h

theorem patMatch_literal {ps : List Char} (hps : '.' ∉ ps) (l : List Char) :
    patMatch ps l = true ↔ l = ps := by
  induction ps generalizing l with
  | nil => cases l <;> simp [patMatch]
  | cons p pt ih =>
    cases l with
    | nil => simp [patMatch]
    | cons c cs =>
      have hp : p ≠ '.' := fun h => hps (h ▸ List.mem_cons_self p pt)
      have hpt : '.' ∉ pt := fun h => hps (List.mem_cons_of_mem p h)
      simp only [patMatch, if_neg hp, Bool.and_eq_true, beq_iff_eq, ih hpt,
        List.cons.injEq]
      constructor
      · rintro ⟨h1, h2⟩; exact ⟨h1.symm, h2⟩
      · rintro ⟨h1, h2⟩; exact ⟨h1.symm, h2⟩

theorem isEmpty_append_singleton (l : List (Int × String)) (x : Int × String) :
    (l ++ [x]).isEmpty = false := by
  cases l <;> rfl

theorem snapLast_append_singleton (v : Int) (init : List (Int × String))
    (x : Int × String) : snapLast v (init ++ [x]) = init ++ [(v, x.2)] := by
  induction init with
  | nil => rfl
  | cons y ys ih =>
    cases ys with
    | nil => rfl
    | cons z zs =>
      show y :: snapLast v ((z :: zs) ++ [x]) = y :: ((z :: zs) ++ [(v, x.2)])
      rw [ih]

theorem firstCover_append_all_le {ts : Int} {l1 : List (Int × String)}
    (h : ∀ x ∈ l1, x.1 ≤ ts) (l2 : List (Int × String)) :
    firstCover ts (l1 ++ l2) = firstCover ts l2 := by
  induction l1 with
  | nil => rfl
  | cons x xs ih =>
    have hx : ¬ ts < x.1 := not_lt.mpr (h x (List.mem_cons_self x xs))
    rw [List.cons_append]
    simp only [firstCover, if_neg hx]
    exact ih fun y hy => h y (List.mem_cons_of_mem x hy)

theorem firstCover_mem {ts : Int} {l : List (Int × String)} {e : Int × String}
    (h : firstCover ts l = some e) : e ∈ l := by
  induction l with
  | nil => simp [firstCover] at h
  | cons x xs ih =>
    rw [firstCover] at h
    split at h
    · exact (Option.some.inj h) ▸ List.mem_cons_self x xs
    · exact List.mem_cons_of_mem x (ih h)

theorem listRank_lt_length {l : List (Int × String)} {e : Int × String}
    (h : e ∈ l) : listRank l e < l.length := by
  induction l with
  | nil => simp at h
  | cons x xs ih =>
    rw [listRank]
    split
    · simp
    case isFalse hne =>
      rcases List.mem_cons.mp h with h1 | h2
      · exact absurd h1.symm hne
      · simpa [List.length_cons] using Nat.succ_lt_succ (ih h2)

theorem firstCover_rank_mono {ts1 ts2 : Int} {l : List (Int × String)}
    (hnd : (l.map Prod.snd).Nodup) (h12 : ts1 ≤ ts2) {e2 : Int × String}
    (h2 : firstCover ts2 l = some e2) :
    ∃ e1, firstCover ts1 l = some e1 ∧ listRank l e1 ≤ listRank l e2 := by
  induction l with
  | nil => simp [firstCover] at h2
  | cons x xs ih =>
    by_cases h1x : ts1 < x.1
    · refine ⟨x, ?_, ?_⟩
      · simp [firstCover, h1x]
      · simp [listRank]
    · have h2x : ¬ ts2 < x.1 := fun hlt => h1x (lt_of_le_of_lt h12 hlt)
      rw [firstCover, if_neg h2x] at h2
      rw [List.map_cons] at hnd
      obtain ⟨hx2, hndxs⟩ := List.nodup_cons.mp hnd
      obtain ⟨e1, he1, hle⟩ := ih hndxs h2
      have he1m := firstCover_mem he1
      have he2m := firstCover_mem h2
      have hne1 : x ≠ e1 := by
        rintro rfl
        exact hx2 (List.mem_map_of_mem Prod.snd he1m)
      have hne2 : x ≠ e2 := by
        rintro rfl
        exact hx2 (List.mem_map_of_mem Prod.snd he2m)
      refine ⟨e1, ?_, ?_⟩
      · rw [firstCover, if_neg h1x]; exact he1
      · simp only [listRank, if_neg hne1, if_neg hne2]
        exact Nat.succ_le_succ hle

theorem resolve_file_found_cases {fs : FS} {ts b : Int} {rel root p : String}
    (h : resolve_file fs ts rel root = .found b p) :
    ((fs.isFile (ospath_join root rel) &&
        decide (liveBoundary fs rel root ≤ ts)) = true ∧
      b = liveBoundary fs rel root ∧ p = ospath_join root rel) ∨
    ((fs.isFile (ospath_join root rel) &&
        decide (liveBoundary fs rel root ≤ ts)) = false ∧
      firstCover ts (snappedArchiveList fs rel root) = some (b, p)) := by
  rw [resolve_file] at h
  split at h
  · exact absurd h (by simp)
  split at h
  · exact absurd h (by simp)
  split at h
  · exact absurd h (by simp)
  split at h
  case isTrue hc =>
    left
    injection h with hb hp
    exact ⟨hc, hb.symm, hp.symm⟩
  case isFalse hc =>
    split at h
    · exact absurd h (by simp)
    right
    refine ⟨by simpa using hc, ?_⟩
    split at h
    case h_1 tp heq =>
      injection h with hb hp
      rw [heq]
      exact congrArg some (Prod.ext hb hp)
    case h_2 => exact absurd h (by simp)

/-! ## Claims -/

/-- C1: Live-preference law.  For every filesystem state, timestamp, valid
relative path and root directory, if the live candidate `root/relative_path`
is a regular file with boundary `b` (its truncated modification time) and
`timestamp ≥ b`, then `resolve_file` returns `(b, live path)` — regardless of
the archive contents, including when `timestamp = b`. -/
theorem live_preference_law (fs : FS) (ts b : Int) (rel root : String)
    (h1 : pyStartsWith rel "/" = false) (h2 : pyEndsWith rel "/" = false)
    (h3 : (rel == "") = false)
    (hex : fs.pathExists root = true) (hdir : fs.isDir root = true)
    (hfile : fs.isFile (ospath_join root rel) = true)
    (hmt : fs.mtime (ospath_join root rel) = b)
    (hts : b ≤ ts) :
    resolve_file fs ts rel root = .found b (ospath_join root rel) := by
  have hlb : liveBoundary fs rel root = b := by
    rw [liveBoundary, if_pos hfile, hmt]
  simp [resolve_file, h1, h2, h3, hex, hdir, hfile, hlb, hts]

theorem live_preference_law_witness :
    resolve_file fsMain 100000 "f1" "/r" = .found 100000 (ospath_join "/r" "f1") :=
  live_preference_law fsMain 100000 100000 "f1" "/r" (by decide) (by decide)
    (by decide) (by decide) (by decide) (by decide) (by decide) (by decide)

/-- C4: Deleted-file scenario.  With the archive mirror of the root holding
exactly `f2` (mtime 99000) and `f2.1` (mtime 99200) and no live `f2`,
`resolve_file` returns NotFound at 99200, the archive `f2.1` with boundary
99200 at 99199, and the archive `f2` with boundary 99000 at 98999. -/
theorem deleted_file_scenario :
    resolve_file fsC4 99200 "f2" "/r2" = .notFound ∧
    resolve_file fsC4 99199 "f2" "/r2" = .found 99200 "/r2/.sync/Archive/f2.1" ∧
    resolve_file fsC4 98999 "f2" "/r2" = .found 99000 "/r2/.sync/Archive/f2" := by
  decide

/-- C8: Projector totality.  For every filesystem state, timestamp, relative
directory and root, `readdir` contains the conventional entries `.` and `..`,
and when both the live directory and the archive mirror directory are absent
the listing is exactly `['.', '..']` — absent directories contribute no
entries and cause no failure. -/
theorem projector_total_listing (fs : FS) (ts : Int) (rel root : String) :
    "." ∈ readdir fs ts rel root ∧ ".." ∈ readdir fs ts rel root ∧
    (fs.isDir (ospath_join root rel) = false →
     fs.isDir (readdirArchivePath rel root) = false →
     readdir fs ts rel root = [".", ".."]) := by
  refine ⟨by simp [readdir], by simp [readdir], fun h1 h2 => ?_⟩
  simp [readdir, liveDirEntries, archiveDirEntries, h1, h2]

theorem projector_total_listing_witness :
    "." ∈ readdir fsEmpty 0 "x" "/r" ∧ ".." ∈ readdir fsEmpty 0 "x" "/r" ∧
    readdir fsEmpty 0 "x" "/r" = [".", ".."] :=
  ⟨(projector_total_listing fsEmpty 0 "x" "/r").1,
   (projector_total_listing fsEmpty 0 "x" "/r").2.1,
   (projector_total_listing fsEmpty 0 "x" "/r").2.2 (by decide) (by decide)⟩

/-- C9: Resolver error taxonomy.  `resolve_file` raises EINVAL when the
relative path is empty or begins or ends with a separator; otherwise it
raises ENOENT when the root does not exist and ENOTDIR when the root exists
but is not a directory; and a raised error is distinct from the ordinary
NotFound result. -/
theorem resolver_error_taxonomy (fs : FS) (ts : Int) (rel root : String) :
    ((pyStartsWith rel "/" || pyEndsWith rel "/" || (rel == "")) = true →
       resolve_file fs ts rel root = .fuseError .einval) ∧
    ((pyStartsWith rel "/" || pyEndsWith rel "/" || (rel == "")) = false →
       fs.pathExists root = false →
       resolve_file fs ts rel root = .fuseError .enoent) ∧
    ((pyStartsWith rel "/" || pyEndsWith rel "/" || (rel == "")) = false →
       fs.pathExists root = true → fs.isDir root = false →
       resolve_file fs ts rel root = .fuseError .enotdir) ∧
    (∀ e : Errno, ResolveOutcome.fuseError e ≠ ResolveOutcome.notFound) := by
  refine ⟨fun h => ?_, fun h hex => ?_, fun h hex hdir => ?_, fun e => by simp⟩
  · simp [resolve_file, h]
  · simp [resolve_file, h, hex]
  · simp [resolve_file, h, hex, hdir]

theorem resolver_error_taxonomy_witness :
    resolve_file fsMain 0 "" "/r" = .fuseError .einval ∧
    resolve_file fsMain 0 "f1" "/nope" = .fuseError .enoent ∧
    resolve_file fsMain 0 "f1" "/r/f1" = .fuseError .enotdir :=
  ⟨(resolver_error_taxonomy fsMain 0 "" "/r").1 (by decide),
   (resolver_error_taxonomy fsMain 0 "f1" "/nope").2.1 (by decide) (by decide),
   (resolver_error_taxonomy fsMain 0 "f1" "/r/f1").2.2.1 (by decide) (by decide)
     (by decide)⟩

/-- C10: Implicit archive-scan failure.  Whenever the live candidate does not
qualify (it is not a regular file, or the timestamp is strictly below its
boundary), `resolve_file` enumerates the archive mirror directory of the
path's parent; when that directory does not exist the call fails with the
uncaught operating-system error from `os.listdir` — not with NotFound and not
with one of the declared `FuseOSError` kinds. -/
theorem archive_scan_uncaught_oserror (fs : FS) (ts : Int) (rel root : String)
    (h1 : pyStartsWith rel "/" = false) (h2 : pyEndsWith rel "/" = false)
    (h3 : (rel == "") = false)
    (hex : fs.pathExists root = true) (hdir : fs.isDir root = true)
    (_hsafe : regexSafe (pyBasename rel))
    (hnq : fs.isFile (ospath_join root rel) = false ∨
           ts < fs.mtime (ospath_join root rel))
    (harch : fs.isDir (archiveDirPath rel root) = false) :
    resolve_file fs ts rel root = .osError := by
  have hcond : (fs.isFile (ospath_join root rel) &&
      decide (liveBoundary fs rel root ≤ ts)) = false := by
    rcases hnq with hno | hlt
    · simp [hno]
    · by_cases hf : fs.isFile (ospath_join root rel) = true
      · have hnle : ¬ liveBoundary fs rel root ≤ ts := by
          rw [liveBoundary, if_pos hf]
          exact not_le.mpr hlt
        simp [hnle]
      · simp [Bool.not_eq_true] at hf
        simp [hf]
  simp [resolve_file, h1, h2, h3, hex, hdir, hcond, harch]

theorem archive_scan_uncaught_oserror_witness :
    resolve_file fsMain 0 "d/f" "/r" = .osError :=
  archive_scan_uncaught_oserror fsMain 0 "d/f" "/r" (by decide) (by decide)
    (by decide) (by decide) (by decide) (by decide) (Or.inl (by decide)) (by decide)

/-- C2: Boundary-snap law.  Resolver side: when a live regular file with
boundary `b ≠ -1` exists and the sorted archive candidate list ends with a
most recent entry of pre-snap boundary `bp ≠ b` and path `pn`, then for any
timestamp below `b` that is at or above every earlier candidate boundary,
`resolve_file` returns `(b, pn)` — the effective boundary of the most recent
archive version is `b`, not `bp`.  Projector side: under the corresponding
hypotheses for a child `d` of the listed directory, `readdir` includes `d`
for any timestamp below `b` that is at or above the boundaries of all older
versions, again independent of `bp`. -/
theorem boundary_snap_law :
    (∀ (fs : FS) (ts b bp : Int) (rel root pn : String)
        (init : List (Int × String)),
      pyStartsWith rel "/" = false → pyEndsWith rel "/" = false →
      (rel == "") = false →
      fs.pathExists root = true → fs.isDir root = true →
      fs.isFile (ospath_join root rel) = true →
      fs.mtime (ospath_join root rel) = b → b ≠ -1 →
      fs.isDir (archiveDirPath rel root) = true →
      pySortAsc (archiveCandidates fs rel root) = init ++ [(bp, pn)] →
      bp ≠ b →
      (∀ x ∈ init, x.1 ≤ ts) → ts < b →
      resolve_file fs ts rel root = .found b pn) ∧
    (∀ (fs : FS) (ts b bp : Int) (rel root d pn : String)
        (rest : List (Int × String)),
      fs.isDir (ospath_join root rel) = true →
      d ∈ fs.listdir (ospath_join root rel) →
      fs.isFile (ospath_join (ospath_join root rel) d) = true →
      fs.mtime (ospath_join (ospath_join root rel) d) = b → b ≠ -1 →
      fs.isDir (readdirArchivePath rel root) = true →
      pySortDesc (archiveVersions fs rel root d) = (bp, pn) :: rest →
      bp ≠ b →
      (∀ x ∈ rest, x.1 ≤ ts) → ts < b →
      d ∈ readdir fs ts rel root) := by
  constructor
  · intro fs ts b bp rel root pn init h1 h2 h3 hex hdir hfile hmt hbne harch
      hsorted hbpb hinit hts
    have hlb : liveBoundary fs rel root = b := by
      rw [liveBoundary, if_pos hfile, hmt]
    have hbne' : (b == -1) = false := beq_eq_false_iff_ne.mpr hbne
    have hsnap : snappedArchiveList fs rel root = init ++ [(b, pn)] := by
      simp [snappedArchiveList, hsorted, hlb, hbne', isEmpty_append_singleton,
        snapLast_append_singleton]
    have hcov : firstCover ts (init ++ [(b, pn)]) = some (b, pn) := by
      rw [firstCover_append_all_le hinit]
      simp [firstCover, hts]
    have hnle : ¬ liveBoundary fs rel root ≤ ts := by
      rw [hlb]
      exact not_le.mpr hts
    simp [resolve_file, h1, h2, h3, hex, hdir, hfile, hnle, harch, hsnap, hcov]
  · intro fs ts b bp rel root d pn rest hdirL hdmem hdfile hdmt hbne hdirA
      hsorted hbpb hrest hts
    have hentry : d ∈ liveDirEntries fs rel root := by
      rw [liveDirEntries, if_pos hdirL]
      exact hdmem
    have hlive : readdirLiveCrtime fs rel root d = b := by
      rw [readdirLiveCrtime, if_pos ⟨hentry, hdfile⟩]
      exact hdmt
    have hbne' : (b == -1) = false := beq_eq_false_iff_ne.mpr hbne
    have hsnap : archiveSnapped fs rel root d = (b, pn) :: rest := by
      simp [archiveSnapped, hsorted, hlive, hbne']
    have hversne : archiveVersions fs rel root d ≠ [] := by
      intro hnil
      rw [hnil] at hsorted
      simp [pySortDesc] at hsorted
    obtain ⟨f0, hf0⟩ :
        ∃ f0, f0 ∈ (archiveDirEntries fs rel root).filter (fun f =>
          fs.isFile (ospath_join (readdirArchivePath rel root) f) &&
          (stripVersionSuffix f == d)) := by
      rcases hfl : (archiveDirEntries fs rel root).filter (fun f =>
          fs.isFile (ospath_join (readdirArchivePath rel root) f) &&
          (stripVersionSuffix f == d)) with _ | ⟨f0, fl⟩
      · exact absurd (by rw [archiveVersions, hfl]; rfl) hversne
      · exact ⟨f0, hfl ▸ List.mem_cons_self f0 fl⟩
    obtain ⟨hf0mem, hf0cond⟩ := List.mem_filter.mp hf0
    simp only [Bool.and_eq_true, beq_iff_eq] at hf0cond
    obtain ⟨hf0file, hf0dec'⟩ := hf0cond
    have hded : d ∈ (((archiveDirEntries fs rel root).filter (fun f =>
        fs.isFile (ospath_join (readdirArchivePath rel root) f))).map
          stripVersionSuffix).dedup := by
      rw [List.mem_dedup]
      exact hf0dec' ▸ List.mem_map_of_mem stripVersionSuffix
        (List.mem_filter.mpr ⟨hf0mem, hf0file⟩)
    have hany : (archiveSnapped fs rel root d).any
        (fun tp => decide (ts < tp.1)) = true := by
      rw [hsnap]
      simp [hts]
    have hmemarch : d ∈ ((((archiveDirEntries fs rel root).filter (fun f =>
        fs.isFile (ospath_join (readdirArchivePath rel root) f))).map
          stripVersionSuffix).dedup.filter (fun x =>
            (archiveSnapped fs rel root x).any (fun tp => decide (ts < tp.1)))) :=
      List.mem_filter.mpr ⟨hded, hany⟩
    simp only [readdir, List.mem_cons, List.mem_append]
    tauto

theorem boundary_snap_law_witness :
    resolve_file fsMain 99995 "f1" "/r" = .found 100000 "/r/.sync/Archive/f1.1" ∧
    "f1" ∈ readdir fsMain 99995 "" "/r" :=
  ⟨boundary_snap_law.1 fsMain 99995 100000 99990 "f1" "/r" "/r/.sync/Archive/f1.1"
      [(99900, "/r/.sync/Archive/f1")] (by decide) (by decide) (by decide)
      (by decide) (by decide) (by decide) (by decide) (by decide) (by decide)
      (by decide) (by decide) (by decide) (by decide),
   boundary_snap_law.2 fsMain 99995 100000 99990 "" "/r" "f1"
      "/r/.sync/Archive/f1.1" [(99900, "/r/.sync/Archive/f1")] (by decide)
      (by decide) (by decide) (by decide) (by decide) (by decide) (by decide)
      (by decide) (by decide) (by decide)⟩

/-- C3: Monotonic coverage.  For a fixed filesystem state, relative path and
root, if `resolve_file` returns a found version at two timestamps
`ts1 ≤ ts2`, the version found at `ts2` is never older than the version found
at `ts1`: its rank — position in the snapped archive candidate list
(oldest first), with the live path ranked after all archive versions — is at
least that of the `ts1` version. -/
theorem monotonic_coverage (fs : FS) (rel root : String)
    (ts1 ts2 b1 b2 : Int) (p1 p2 : String)
    (hnd : ((snappedArchiveList fs rel root).map Prod.snd).Nodup)
    (hlp : ospath_join root rel ∉ (snappedArchiveList fs rel root).map Prod.snd)
    (h12 : ts1 ≤ ts2)
    (h1 : resolve_file fs ts1 rel root = .found b1 p1)
    (h2 : resolve_file fs ts2 rel root = .found b2 p2) :
    versionRank (snappedArchiveList fs rel root) (ospath_join root rel) (b1, p1) ≤
    versionRank (snappedArchiveList fs rel root) (ospath_join root rel) (b2, p2) := by
  rcases resolve_file_found_cases h1 with ⟨hc1, hb1, hp1⟩ | ⟨hc1, hf1⟩
  · rcases resolve_file_found_cases h2 with ⟨hc2, hb2, hp2⟩ | ⟨hc2, hf2⟩
    · simp [versionRank, hp1, hp2]
    · exfalso
      simp only [Bool.and_eq_true] at hc1
      obtain ⟨hif, hle⟩ := hc1
      have hle2 : liveBoundary fs rel root ≤ ts2 :=
        le_trans (of_decide_eq_true hle) h12
      simp [hif, hle2] at hc2
  · rcases resolve_file_found_cases h2 with ⟨hc2, hb2, hp2⟩ | ⟨hc2, hf2⟩
    · have hmem := firstCover_mem hf1
      have hp1ne : p1 ≠ ospath_join root rel := by
        intro hcontra
        exact hlp (hcontra ▸ List.mem_map_of_mem Prod.snd hmem)
      simp only [versionRank, hp2, if_pos rfl, if_neg hp1ne]
      exact le_of_lt (listRank_lt_length hmem)
    · obtain ⟨e1, he1, hle⟩ := firstCover_rank_mono hnd h12 hf2
      have he1eq : e1 = (b1, p1) := by
        rw [he1] at hf1
        exact Option.some.inj hf1
      subst he1eq
      have hm1 := firstCover_mem he1
      have hm2 := firstCover_mem hf2
      have hp1ne : p1 ≠ ospath_join root rel := by
        intro hcontra
        exact hlp (hcontra ▸ List.mem_map_of_mem Prod.snd hm1)
      have hp2ne : p2 ≠ ospath_join root rel := by
        intro hcontra
        exact hlp (hcontra ▸ List.mem_map_of_mem Prod.snd hm2)
      simpa [versionRank, hp1ne, hp2ne] using hle

theorem monotonic_coverage_witness :
    versionRank (snappedArchiveList fsMain "f1" "/r") (ospath_join "/r" "f1")
      (100000, "/r/.sync/Archive/f1.1") ≤
    versionRank (snappedArchiveList fsMain "f1" "/r") (ospath_join "/r" "f1")
      (100000, "/r/f1") :=
  monotonic_coverage fsMain "f1" "/r" 99995 100000 100000 100000
    "/r/.sync/Archive/f1.1" "/r/f1" (by decide) (by decide) (by decide)
    (by decide) (by decide)

theorem all_of_dropWhile_eq_nil {p : Char → Bool} {l : List Char}
    (h : l.dropWhile p = []) : ∀ c ∈ l, p c = true := by
  induction l with
  | nil => intro c hc; simp at hc
  | cons c cs ih =>
    rw [List.dropWhile_cons] at h
    split at h
    case isTrue hp =>
      intro x hx
      rcases List.mem_cons.mp hx with rfl | hx2
      · exact hp
      · exact ih h x hx2
    case isFalse hp => exact absurd h (List.cons_ne_nil c cs)

theorem tailOk_no_newline {l : List Char} (hl : '\n' ∉ l) :
    tailOk l = true ↔
      l = [] ∨ ∃ ds, ds ≠ [] ∧ ds.all isPyDigit = true ∧ l = '.' :: ds := by
  cases l with
  | nil => simp [tailOk]
  | cons c rest =>
    have hcne : c ≠ '\n' := fun h => hl (h ▸ List.mem_cons_self c rest)
    have hlne : (c :: rest : List Char) ≠ ['\n'] := by
      intro h
      injection h with h1 _
      exact hcne h1
    rw [tailOk, if_neg (List.cons_ne_nil c rest), if_neg hlne]
    by_cases hc : c = '.'
    · subst hc
      rw [if_pos (show (('.' : Char) :: rest).head? = some '.' from rfl)]
      have hrnl : '\n' ∉ rest := fun h => hl (List.mem_cons_of_mem _ h)
      have hdw : ((rest.dropWhile isPyDigit) == ['\n']) = false := by
        apply beq_eq_false_iff_ne.mpr
        intro h
        exact hrnl (mem_of_mem_dropWhile (h ▸ List.mem_cons_self '\n' []))
      show (!(List.takeWhile isPyDigit rest).isEmpty &&
        ((List.dropWhile isPyDigit rest).isEmpty ||
          (List.dropWhile isPyDigit rest == ['\n']))) = true ↔ _
      rw [hdw, Bool.or_false]
      constructor
      · intro h
        simp only [Bool.and_eq_true] at h
        obtain ⟨hts, hds⟩ := h
        have hdrop : rest.dropWhile isPyDigit = [] := by
          rwa [List.isEmpty_iff] at hds
        have hall := all_of_dropWhile_eq_nil hdrop
        have htw : rest.takeWhile isPyDigit = rest := takeWhile_eq_self_of_all hall
        right
        refine ⟨rest, ?_, List.all_eq_true.mpr hall, rfl⟩
        intro hrnil
        rw [hrnil] at hts
        simp at hts
      · rintro (h | ⟨ds, hds, hdig, heq⟩)
        · exact absurd h (List.cons_ne_nil _ _)
        · injection heq with _ h2
          subst h2
          have hall := List.all_eq_true.mp hdig
          rw [takeWhile_eq_self_of_all hall, dropWhile_eq_nil_of_all hall]
          cases rest with
          | nil => exact absurd rfl hds
          | cons x xs => rfl
    · rw [if_neg (by simp [hc])]
      simp [hc, List.cons_ne_nil]

/-- C5 counterexample: with basename `a.b` the unescaped regex makes the dot
a wildcard, so `resolve_file` selects the archive entry `axb` even though
`axb` is neither `a.b` nor `a.b.<digits>` — selection is not the exact
filename match the claim states. -/
theorem archive_selection_not_exact :
    resolve_file fsC5 50 "a.b" "/r" = .found 100 "/r/.sync/Archive/axb" ∧
    prevVersionMatch "a.b" "axb" = true ∧
    specExactArchiveName "a.b" "axb" = false := by decide

/-- C5 amended: archive candidate selection follows the anchored regex with
the **unescaped** basename interpreted as a regex.  For basenames containing
no regex metacharacter at all and filenames containing no newline, the
selection used by `resolve_file` coincides with the spec's exact-name
predicate (`basename` or `basename.<digits>` exactly); a `.` in the basename
instead matches any single non-newline character, and the end anchor also
tolerates one trailing newline in a filename. -/
theorem archive_selection_plain_exact (b f : String)
    (hb : regexPlain b) (hf : '\n' ∉ f.toList) :
    prevVersionMatch b f = specExactArchiveName b f := by
  obtain ⟨-, hdot⟩ := hb
  have hboolext : ∀ x y : Bool, (x = true ↔ y = true) → x = y := by decide
  apply hboolext
  have hrnl : '\n' ∉ f.toList.drop b.toList.length :=
    fun hx => hf (List.drop_subset _ _ hx)
  constructor
  · intro h
    simp only [prevVersionMatch, Bool.and_eq_true] at h
    rw [patMatch_literal hdot] at h
    obtain ⟨htake, htail⟩ := h
    rcases (tailOk_no_newline hrnl).mp htail with hr | ⟨ds, hds, hdig, hr⟩
    · have hfb : f = b := string_ext_data (by
        rw [← List.take_append_drop b.toList.length f.toList, htake, hr]
        simp)
      simp [specExactArchiveName, hfb]
    · have hdse : ds.isEmpty = false := by
        cases ds
        · exact absurd rfl hds
        · rfl
      rw [specExactArchiveName, hr]
      simp only [Bool.or_eq_true, Bool.and_eq_true, beq_iff_eq, List.tail_cons,
        List.head?_cons]
      right
      refine ⟨⟨⟨htake, trivial⟩, ?_⟩, hdig⟩
      rw [hdse]
      rfl
  · intro h
    simp only [specExactArchiveName, Bool.or_eq_true, Bool.and_eq_true,
      beq_iff_eq] at h
    simp only [prevVersionMatch, Bool.and_eq_true]
    rw [patMatch_literal hdot]
    rcases h with h | h
    · subst h
      refine ⟨List.take_length f.toList, ?_⟩
      rw [List.drop_length]
      rfl
    · obtain ⟨⟨⟨htake, hhead⟩, hne⟩, hall⟩ := h
      refine ⟨htake, ?_⟩
      rcases hr : f.toList.drop b.toList.length with _ | ⟨c, rest⟩
      · rw [hr] at hhead
        simp at hhead
      · rw [hr] at hhead hne hall hrnl
        have hc : c = '.' := by simpa using hhead
        subst hc
        have hrestne : rest ≠ [] := by
          intro hcq
          subst hcq
          simp at hne
        exact (tailOk_no_newline hrnl).mpr
          (Or.inr ⟨rest, hrestne, by simpa using hall, rfl⟩)

theorem archive_selection_plain_exact_witness :
    prevVersionMatch "f2" "f2.10" = specExactArchiveName "f2" "f2.10" :=
  archive_selection_plain_exact "f2" "f2.10" (by decide) (by decide)

/-- C6: the parser is not total.  On the input `/inf/file.txt` the timestamp
token parses to a float infinity, and `int(float('inf'))` raises an
`OverflowError` that the `except ValueError` clause does not catch — the
call fails instead of returning the documented error result.  For contrast,
a decimal token is truncated as documented and a trailing separator yields
the error result. -/
theorem parser_overflow_on_inf :
    get_timestamp_and_rel_path "/inf/file.txt" = .overflowError ∧
    get_timestamp_and_rel_path "/2000.20/dir/file.txt" = .ok 2000 "dir/file.txt" ∧
    get_timestamp_and_rel_path "/200/dir/" = .ok (-1) "" := by decide

/-- C7 counterexample: the archive mirror of directory `d` contains a
non-regular-file child named `sub.1`; `readdir` lists it under the decoded
name `sub`, not under its undecoded name `sub.1`. -/
theorem archive_dir_names_decoded_cex :
    "sub" ∈ readdir fsC7 0 "d" "/r" ∧ "sub.1" ∉ readdir fsC7 0 "d" "/r" := by
  decide

/-- C7 amended: for every archive-mirror child that is not a regular file,
`readdir` adds that child's name to the result unconditionally under its
**decoded** name (the trailing dot-digits version suffix stripped), at every
query timestamp. -/
theorem archive_dir_names_added_decoded (fs : FS) (ts : Int) (rel root f : String)
    (hdirA : fs.isDir (readdirArchivePath rel root) = true)
    (hmem : f ∈ fs.listdir (readdirArchivePath rel root))
    (hnotfile : fs.isFile (ospath_join (readdirArchivePath rel root) f) = false) :
    stripVersionSuffix f ∈ readdir fs ts rel root := by
  have hentry : f ∈ archiveDirEntries fs rel root := by
    rw [archiveDirEntries, if_pos hdirA]
    exact hmem
  have hmap : stripVersionSuffix f ∈ ((archiveDirEntries fs rel root).filter
      (fun g => !fs.isFile (ospath_join (readdirArchivePath rel root) g))).map
        stripVersionSuffix :=
    List.mem_map_of_mem stripVersionSuffix
      (List.mem_filter.mpr ⟨hentry, by simp [hnotfile]⟩)
  simp only [readdir, List.mem_cons, List.mem_append]
  tauto

theorem archive_dir_names_added_decoded_witness :
    stripVersionSuffix "sub.1" ∈ readdir fsC7 0 "d" "/r" :=
  archive_dir_names_added_decoded fsC7 0 "d" "/r" "sub.1" (by decide) (by decide)
    (by decide)
